import Mathlib

/-!
# Verification of the VibePy signal-preparation core

A shallow embedding of the VibePy repository's compensation and calibration
modules (`playback.py`, `compensation.py`, `calibration.py`).  Waveforms are
modelled as `List ℚ` (exact sample values); external library primitives that
the source calls (`scipy.signal.welch`, `scipy.signal.firwin2`, `numpy.sin`,
`numpy.cos`, `numpy.random.rand`) are taken as explicit function parameters,
so every theorem about the repository's own logic is structural and holds for
any behaviour of those libraries.  Python/numpy primitives that the source
relies on (builtin `round`, builtin `max`, slicing, `np.argmax`, `np.zeros`,
`np.linspace`, slice assignment) are modelled faithfully, including their
error behaviour (`Option` results where numpy raises).
-/

namespace VibePy

/-- Python's builtin `round`: round half to even (banker's rounding), modelled
on exact rationals. -/
def pyRound (q : ℚ) : ℤ :=
  let fl := ⌊q⌋
  let fr := q - fl
  if fr < 1/2 then fl
  else if 1/2 < fr then fl + 1
  else if fl % 2 = 0 then fl else fl + 1

/-- `numpy.linspace a b n` (endpoint included): the `i`-th sample is
`a + i*(b-a)/(n-1)`.  For `n = 1` numpy returns `[a]`, which the formula also
gives since `ℚ` division by zero is zero. -/
def np_linspace (a b : ℚ) (n : ℕ) : List ℚ :=
  (List.range n).map (fun (i : ℕ) => a + (i : ℚ) * ((b - a) / ((n : ℚ) - 1)))

/-- Python's builtin `max` on a list of numbers (the source only applies it to
nonempty arrays; we default to the head so the empty case is total). -/
def pyMax (l : List ℚ) : ℚ := l.foldl max (l.headD 0)

/-- `max(abs(x))`: the peak magnitude of a waveform. -/
def peakAbs (l : List ℚ) : ℚ := (l.map (fun x => |x|)).foldl max 0

/-- `np.argmax`: index of the first occurrence of the maximum value
(`0` on the empty list, where numpy raises). -/
def np_argmax : List ℚ → ℕ
  | [] => 0
  | [_] => 0
  | x :: y :: ys =>
    if x < (y :: ys).getD (np_argmax (y :: ys)) 0 then np_argmax (y :: ys) + 1
    else 0

/-- First index of the maximum of `|·|`, i.e. `argmax(|l|)`. -/
def np_argmaxAbs (l : List ℚ) : ℕ := np_argmax (l.map (fun x => |x|))

/-- Resolve one endpoint of a Python slice `l[a:b]` against length `n`:
negative indices count from the end (clamped below at `0`), nonnegative ones
are clamped above at `n`. -/
def pySliceIdx (n : ℕ) (i : ℤ) : ℕ :=
  if i < 0 then ((n : ℤ) + i).toNat else min i.toNat n

/-- Python slice `l[a:b]` with full Python index semantics. -/
def pySlice (l : List ℚ) (a b : ℤ) : List ℚ :=
  (l.take (pySliceIdx l.length b)).drop (pySliceIdx l.length a)

/-- numpy slice assignment `l[a:b] = vals` for an array right-hand side:
succeeds only when the resolved slice has exactly the length of `vals`
(otherwise numpy raises a broadcast error). -/
def npAssignSlice (l : List ℚ) (a b : ℤ) (vals : List ℚ) : Option (List ℚ) :=
  let lo := pySliceIdx l.length a
  let hi := pySliceIdx l.length b
  if hi - lo = vals.length ∧ lo ≤ hi then
    some (l.take lo ++ vals ++ l.drop (lo + vals.length))
  else none

/-- `np.zeros(k)` where `k` is a (possibly negative) Python int: numpy raises
`ValueError: negative dimensions are not allowed` when `k < 0`. -/
def npZerosInt (k : ℤ) : Option (List ℚ) :=
  if k < 0 then none else some (List.replicate k.toNat 0)

/-! ## playback.py -/

/-- `playback.play_and_record`, lines 36–45: the length-reconciliation step of
the padded branch, applied to the already-captured `recording`.
`diff_samps = len(recording) - len(playback)`; if positive the recording is
trimmed from the front, if negative the source executes
`np.concatenate([recording, np.zeros(diff_samps)])` with the *negative*
`diff_samps`, which raises. -/
def playback_fix_length (playback recording : List ℚ) : Option (List ℚ) :=
  let diff : ℤ := (recording.length : ℤ) - playback.length
  if 0 < diff then some (recording.drop diff.toNat)
  else if diff < 0 then
    match npZerosInt diff with
    | none => none
    | some zs => some (recording ++ zs)
  else some recording

/-! ## compensation.py -/

/-- `compensation.equalize_length` (identical to `calibration.equalize_length`):
trim the recording from the front if longer; if shorter, write it into a fresh
zero buffer of the playback's length (`adjusted_recording[0:len(recording)] =
recording`), i.e. right-pad with zeros. -/
def equalize_length (playback recording : List ℚ) : List ℚ :=
  if recording.length > playback.length then
    recording.drop (recording.length - playback.length)
  else if recording.length < playback.length then
    recording ++ List.replicate (playback.length - recording.length) 0
  else recording

/-- `compensation.get_amplitude_spectrum`: calls `scipy.signal.welch(sound, fs,
window='hamming', nperseg=fft, scaling='spectrum', detrend=False)` and returns
the `(frequencies, amplitudes)` pair unchanged.  The `welch` estimator itself
is an external scipy routine, taken here as a function parameter; `lo` and
`hi` are accepted but never used by the source. -/
def get_amplitude_spectrum (welch : List ℚ → ℚ → ℕ → List ℚ × List ℚ)
    (sound : List ℚ) (fs : ℚ) (fft : ℕ) (lo hi : ℕ) : List ℚ × List ℚ :=
  welch sound fs fft

/-- The spec's description of the same operation ("returns the *square root*
of the power estimate … an optional `[lo, hi]` index pair truncates both
returned sequences to that band"), written out for comparison with the source
definition.  `np_sqrt` stands for elementwise `np.power(·, 0.5)`. -/
def get_amplitude_spectrum_specVersion (welch : List ℚ → ℚ → ℕ → List ℚ × List ℚ)
    (np_sqrt : ℚ → ℚ) (sound : List ℚ) (fs : ℚ) (fft : ℕ) (lo hi : ℕ) :
    List ℚ × List ℚ :=
  let fp := welch sound fs fft
  (((fp.1.take (hi + 1)).drop lo), (((fp.2.map np_sqrt).take (hi + 1)).drop lo))

/-- Zero out the entries of `l` with index in `[a, b)` (numpy scalar slice
assignment `l[a:b] = 0`). -/
def zeroSlice (l : List ℚ) (a b : ℕ) : List ℚ :=
  l.mapIdx (fun i x => if a ≤ i ∧ i < b then 0 else x)

/-- The amplitude-ratio computation inside `compensation.get_compensation_filter`
(lines 110–120): take both Welch spectra, apply `np.power(·, 0.5)` to each
(`np_sqrt` parameter), divide elementwise, and zero the ratio below `lo` and
from `hi+10` on. -/
def comp_amp_ratio (welch : List ℚ → ℚ → ℕ → List ℚ × List ℚ) (np_sqrt : ℚ → ℚ)
    (playback recording : List ℚ) (fs : ℚ) (fft : ℕ) (lo hi : ℕ) : List ℚ :=
  let playback_amp := ((get_amplitude_spectrum welch playback fs fft lo hi).2).map np_sqrt
  let recording_amp := ((get_amplitude_spectrum welch recording fs fft lo hi).2).map np_sqrt
  let ratio := List.zipWith (· / ·) playback_amp recording_amp
  zeroSlice (zeroSlice ratio 0 lo) (hi + 10) ratio.length

/-- `compensation.get_compensation_filter`: build the amplitude ratio, the
frequency vector `linspace(0,1,len) * fs/2`, and synthesize the FIR filter via
`scipy.signal.firwin2` (external, a parameter) with `fft+1` taps when `fft` is
even and `fft` taps otherwise. -/
def get_compensation_filter (welch : List ℚ → ℚ → ℕ → List ℚ × List ℚ)
    (np_sqrt : ℚ → ℚ) (firwin2 : ℕ → List ℚ → List ℚ → List ℚ)
    (playback recording : List ℚ) (fs : ℚ) (fft : ℕ) (lo hi : ℕ) : List ℚ :=
  let amp_ratio := comp_amp_ratio welch np_sqrt playback recording fs fft lo hi
  let freq_vector := (np_linspace 0 1 amp_ratio.length).map (fun x => fs/2 * x)
  if fft % 2 = 0 then firwin2 (fft + 1) freq_vector amp_ratio
  else firwin2 fft freq_vector amp_ratio

/-- The clip guard at the end of `compensation.compensate` (lines 143–146),
applied to the already-filtered stimulus: if `abs(max(x)) > 1` (note: the
absolute value of the *signed* maximum), rescale by `1/(1.1*abs(max(x)))`. -/
def compensate_clip_guard (x : List ℚ) : List ℚ :=
  if |pyMax x| > 1 then x.map (fun v => v * (1 / (11/10 * |pyMax x|))) else x

/-- `scipy.signal.lfilter(b, 1, x)`: causal FIR filtering, `y[n] = Σ_k b[k] *
x[n-k]` (zero initial state). -/
def lfilter_fir (b x : List ℚ) : List ℚ :=
  (List.range x.length).map (fun n =>
    ((List.range b.length).map (fun k =>
      b.getD k 0 * (if k ≤ n then x.getD (n - k) 0 else 0))).sum)

/-- `compensation.compensate`: apply the filter, then the clip guard. -/
def compensate (compensation_filter stimulus : List ℚ) : List ℚ :=
  compensate_clip_guard (lfilter_fir compensation_filter stimulus)

/-- The windowing idiom that both `compensation.generate_noise` and
`calibration.get_peak_segmentment` repeat verbatim: build a ones vector of the
signal's length, overwrite its head with the half-sine ramp
`0.5*sin(ramp - π/2) + 0.5` and its tail with the half-cosine ramp
`0.5*cos(ramp) + 0.5` (both numpy slice assignments, which raise when the ramp
does not fit), and multiply the signal by the window elementwise. -/
def apply_window (ramp : List ℚ) (np_sin np_cos : ℚ → ℚ) (np_pi : ℚ)
    (signal : List ℚ) : Option (List ℚ) :=
  let n := signal.length
  let up := ramp.map (fun t => 1/2 * np_sin (t - np_pi/2) + 1/2)
  let down := ramp.map (fun t => 1/2 * np_cos t + 1/2)
  match npAssignSlice (List.replicate n 1) 0 (ramp.length : ℤ) up with
  | none => none
  | some w1 =>
    match npAssignSlice w1 ((n : ℤ) - ramp.length) (n : ℤ) down with
    | none => none
    | some window => some (List.zipWith (· * ·) signal window)

/-- `compensation.generate_noise`: 2 seconds of white noise (`rand` is the
`np.random.rand(2*fs)` draw, a parameter), tapered over the first and last
`round(fs/5)` samples with half-sine/half-cosine ramps, padded with
`round(fs/6)` zeros in front and three times `round(fs/6)` zeros behind, then
multiplied by `0.5`.  `np_sin`, `np_cos`, `np_pi` stand for the numpy
trigonometric primitives. -/
def generate_noise (fs : ℕ) (rand : List ℚ) (np_sin np_cos : ℚ → ℚ)
    (np_pi : ℚ) : Option (List ℚ) :=
  let white_noise := rand.map (fun x => x - 1/2)
  let ramp := np_linspace 0 np_pi (pyRound ((fs : ℚ)/5)).toNat
  match apply_window ramp np_sin np_cos np_pi white_noise with
  | none => none
  | some windowed =>
    let padding := List.replicate (pyRound ((fs : ℚ)/6)).toNat (0 : ℚ)
    some ((padding ++ windowed ++ padding ++ padding ++ padding).map
      (fun x => x * (1/2)))

/-! ## calibration.py -/

/-- `calibration.generate_click`: a zero buffer of `2*fs` samples with a unit
impulse written at index `round(len/2) = fs`. -/
def generate_click (fs : ℕ) : List ℚ :=
  (List.replicate (2*fs) 0).set (pyRound ((2*fs : ℚ)/2)).toNat 1

/-- The delay computation of `calibration.get_time_delay` (line 73), applied
to the captured click response: `np.argmax(recorded_click) - fs`.  Note the
argmax of the *signed* samples. -/
def get_time_delay_calc (recorded : List ℚ) (fs : ℕ) : ℤ :=
  (np_argmax recorded : ℤ) - fs

/-- `calibration.get_peak_segmentment`: slice
`playback[peak-round(size/2) : peak+round(size/2)]` (Python slice semantics,
so out-of-range peaks shorten the segment or wrap negatively), then window the
segment with ramps of `round(size/8)` samples; the two numpy slice
assignments raise when the ramp does not fit the segment. -/
def get_peak_segmentment (np_sin np_cos : ℚ → ℚ) (np_pi : ℚ)
    (playback : List ℚ) (peak_location : ℤ) (segment_size : ℕ) :
    Option (List ℚ) :=
  let half := pyRound ((segment_size : ℚ)/2)
  let segment := pySlice playback (peak_location - half) (peak_location + half)
  let ramp := np_linspace 0 np_pi (pyRound ((segment_size : ℚ)/8)).toNat
  apply_window ramp np_sin np_cos np_pi segment

/-- The step-multiplier construction of `calibration.generate_ladder`
(lines 116–119): `step_max = 1.25 * max(|segment|) / (recording_peak_amp /
target_peak_amp)`, then `np.linspace(0.01, step_max, 20)`. -/
def generate_ladder_steps (segment : List ℚ)
    (recording_peak_amp target_peak_amp : ℚ) : List ℚ :=
  let segment_max := peakAbs segment
  let step_max := 5/4 * segment_max / (recording_peak_amp / target_peak_amp)
  np_linspace (1/100) step_max 20

/-- `np.polyfit(x, y, 1)` in the full-rank case: the unique least-squares line,
given in normal-equation closed form as `(slope, intercept)` with
`slope = (n·Σxy − Σx·Σy)/D`, `intercept = (Σx²·Σy − Σx·Σxy)/D`,
`D = n·Σx² − (Σx)²`. -/
def polyfit1 (x y : List ℚ) : ℚ × ℚ :=
  let n : ℚ := x.length
  let sx := x.sum
  let sy := y.sum
  let sxx := (x.map (fun v => v^2)).sum
  let sxy := (List.zipWith (· * ·) x y).sum
  let d := n * sxx - sx^2
  ((n * sxy - sx * sy) / d, (sxx * sy - sx * sxy) / d)

/-- `calibration.perform_regression`: `np.polyfit(recording_peaks, steps, 1)`
— fit measured peak (x) against multiplier (y). -/
def perform_regression (steps recording_peaks : List ℚ) : ℚ × ℚ :=
  polyfit1 recording_peaks steps

/-- `calibration.get_amplitude_multiplier`: `np.polyval(p, target)` for the
degree-one coefficient pair `p = (slope, intercept)`. -/
def get_amplitude_multiplier (polynomial : ℚ × ℚ) (target_amp : ℚ) : ℚ :=
  polynomial.1 * target_amp + polynomial.2

/-- `calibration.calibrate_amplitude`: `np.multiply(playback, multiplier)`. -/
def calibrate_amplitude (playback : List ℚ) (multiplier : ℚ) : List ℚ :=
  playback.map (fun v => v * multiplier)

/-- The externally observable outcome of the tail of `calibration.main`
(lines 249–259): which waveform is written to the calibrated file, and which
warning messages are printed on the way. -/
structure CalibOutcome where
  saved : List ℚ
  warnings : List String
  deriving Repr, DecidableEq

/-- The tail of `calibration.main`: compute `calibrated_playback =
calibrate_amplitude(playback, multiplier)` and write exactly that waveform
with `sf.write`; the source performs no peak check and prints no clipping
warning between the scaling and the save. -/
def calibration_finalize (playback : List ℚ) (multiplier : ℚ) : CalibOutcome :=
  { saved := calibrate_amplitude playback multiplier, warnings := [] }

/-! ## Concrete instantiations of the external library parameters

Used to evaluate the parametrised definitions at closed inputs (witnesses and
counterexamples). -/

/-- A concrete Welch estimator instance: four frequency bins, constant power
`4` in every bin. -/
def welchStub : List ℚ → ℚ → ℕ → List ℚ × List ℚ :=
  fun _ _ _ => ([0, 1, 2, 3], [4, 4, 4, 4])

/-- A concrete elementwise-square-root instance that is exact on the values
`welchStub` produces (`√4 = 2`, `√1 = 1`, `√0 = 0`). -/
def sqrtStub : ℚ → ℚ :=
  fun q => if q = 4 then 2 else if q = 1 then 1 else 0

/-- A concrete `firwin2` instance honouring scipy's contract that
`firwin2(numtaps, freq, gain)` returns `numtaps` coefficients. -/
def firwin2Stub : ℕ → List ℚ → List ℚ → List ℚ :=
  fun n _ _ => List.replicate n 0

/-- The x-values `0, 1, …, 19` used as the concrete measured peaks in the
regression witness. -/
def xs20 : List ℚ := (List.range 20).map (fun i => (i : ℚ))

/-! # Theorems -/

/-- C1.  The length-reconciliation step.  `equalize_length` behaves as the
claim states on both sides (front-trim shown on a longer capture, zero-pad
shown on a shorter one), but the padded branch of `playback.play_and_record`
does **not**: for a capture shorter than the waveform it evaluates
`np.zeros(diff_samps)` with the negative `diff_samps`, which raises
`ValueError` instead of padding — modelled as `none`. -/
theorem playback_pad_branch_crashes_on_short_capture :
    equalize_length ([7, 7] : List ℚ) [1, 2, 3] = [2, 3] ∧
    equalize_length ([7, 7, 7] : List ℚ) [1, 2] = [1, 2, 0] ∧
    playback_fix_length ([7, 7] : List ℚ) [1, 2, 3] = some [2, 3] ∧
    playback_fix_length ([7, 7, 7] : List ℚ) [1, 2] = none := by
  refine ⟨by decide, by decide, by decide, by decide⟩

/-- C2.  The compensation clip guard tests `abs(max(x))` — the absolute value
of the *signed* maximum — rather than the peak magnitude `max(|x|)`.  On the
filtered waveform `[-2, 0]` the peak magnitude is `2 > 1`, yet the guard
leaves the waveform unchanged, so the returned peak is `2`, far above the
claimed bound `1/1.1 = 10/11`. -/
theorem clip_guard_misses_negative_peak :
    peakAbs ([-2, 0] : List ℚ) = 2 ∧
    (1 : ℚ) < 2 ∧
    compensate_clip_guard ([-2, 0] : List ℚ) = [-2, 0] ∧
    ¬ peakAbs (compensate_clip_guard ([-2, 0] : List ℚ)) ≤ 10/11 := by
  refine ⟨by decide, by decide, by decide, ?_⟩
  rw [(by decide : compensate_clip_guard ([-2, 0] : List ℚ) = [-2, 0]),
    (by decide : peakAbs ([-2, 0] : List ℚ) = 2)]
  norm_num

/-- C3, counterexample.  `get_amplitude_spectrum` does not return the square
root of the Welch power estimate and does not truncate to the `[lo, hi]`
band: with a Welch instance producing four bins of power `4` and the band
`[1, 2]`, the source returns all four raw powers `4` (no square root — the
spec-faithful version returns `2`s — and four bins, not the band's one or
two). -/
theorem amplitude_spectrum_not_sqrt_not_truncated :
    (get_amplitude_spectrum welchStub [1, 0, 1, 0] 8 4 1 2).2 = [4, 4, 4, 4] ∧
    (get_amplitude_spectrum welchStub [1, 0, 1, 0] 8 4 1 2).1.length = 4 ∧
    get_amplitude_spectrum welchStub [1, 0, 1, 0] 8 4 1 2 ≠
      get_amplitude_spectrum_specVersion welchStub sqrtStub [1, 0, 1, 0] 8 4 1 2 ∧
    sqrtStub 4 * sqrtStub 4 = 4 := by
  refine ⟨by decide, by decide, by decide, by norm_num [sqrtStub]⟩

/-- C3, amended.  `get_amplitude_spectrum` returns the Welch estimator's
`(frequencies, powers)` pair unchanged, for any Welch instance: no square
root is taken and the `lo`/`hi` arguments are ignored (the output is
identical for any two bands). -/
theorem amplitude_spectrum_returns_raw_welch
    (welch : List ℚ → ℚ → ℕ → List ℚ × List ℚ) (sound : List ℚ) (fs : ℚ)
    (fft lo hi lo' hi' : ℕ) :
    get_amplitude_spectrum welch sound fs fft lo hi = welch sound fs fft ∧
    get_amplitude_spectrum welch sound fs fft lo hi =
      get_amplitude_spectrum welch sound fs fft lo' hi' := ⟨rfl, rfl⟩

/-- C5, counterexample.  The calibration engine never emits a clipping
warning: with stimulus `[2]` and multiplier `1` the calibrated waveform's
peak magnitude is `2 ≥ 1`, yet the list of warnings printed by the tail of
`calibration.main` is empty. -/
theorem calibration_warns_nothing_on_clipping :
    (1 : ℚ) ≤ peakAbs ((calibration_finalize [2] 1).saved) ∧
    (calibration_finalize [2] 1).warnings = [] := by
  constructor
  · have h : (calibration_finalize [2] 1).saved = [2 * 1] := rfl
    rw [h, (by norm_num : (2 * 1 : ℚ) = 2), (by decide : peakAbs [(2 : ℚ)] = 2)]
    norm_num
  · rfl

/-- C5, amended.  The calibration engine persists the calibrated waveform
exactly equal to the stimulus scaled elementwise by the multiplier, with no
automatic rescaling regardless of its peak — but it emits **no** clipping
warning, even when the calibrated waveform's peak magnitude is `≥ 1`. -/
theorem calibration_saves_scaled_unmodified (playback : List ℚ) (mult : ℚ) :
    (calibration_finalize playback mult).saved = calibrate_amplitude playback mult ∧
    (calibration_finalize playback mult).saved.length = playback.length ∧
    (∀ i, i < playback.length →
      (calibration_finalize playback mult).saved.getD i 0 = playback.getD i 0 * mult) ∧
    (calibration_finalize playback mult).warnings = [] := by
  refine ⟨rfl, by simp [calibration_finalize, calibrate_amplitude], ?_, rfl⟩
  intro i hi
  simp [calibration_finalize, calibrate_amplitude, List.getD_eq_getElem?_getD,
    List.getElem?_map, hi, List.getElem?_eq_getElem]

/-- Unfolding equation for `np_argmax` on a list of two or more samples. -/
theorem np_argmax_cons2 (x y : ℚ) (ys : List ℚ) :
    np_argmax (x :: y :: ys) =
      if x < (y :: ys).getD (np_argmax (y :: ys)) 0 then np_argmax (y :: ys) + 1
      else 0 := rfl

/-- `np_argmax` returns an index of the list when the list is nonempty. -/
theorem np_argmax_lt_length : ∀ l : List ℚ, l ≠ [] → np_argmax l < l.length
  | [x], _ => by rw [show np_argmax [x] = 0 from rfl]; simp
  | x :: y :: ys, _ => by
    have ih := np_argmax_lt_length (y :: ys) (by simp)
    rw [np_argmax_cons2]
    by_cases h : x < (y :: ys).getD (np_argmax (y :: ys)) 0
    · rw [if_pos h]
      simpa using Nat.succ_lt_succ ih
    · rw [if_neg h]
      simp

/-- The value at `np_argmax` dominates every element of the list. -/
theorem np_argmax_is_max : ∀ l : List ℚ, ∀ z ∈ l, z ≤ l.getD (np_argmax l) 0
  | [], z, hz => by simp at hz
  | [x], z, hz => by
    rw [List.mem_singleton] at hz
    subst hz
    rw [show np_argmax [z] = 0 from rfl, List.getD_cons_zero]
  | x :: y :: ys, z, hz => by
    have ih := np_argmax_is_max (y :: ys)
    rw [np_argmax_cons2]
    by_cases h : x < (y :: ys).getD (np_argmax (y :: ys)) 0
    · rw [if_pos h, List.getD_cons_succ]
      rcases List.mem_cons.mp hz with rfl | hz'
      · exact le_of_lt h
      · exact ih z hz'
    · rw [if_neg h, List.getD_cons_zero]
      rcases List.mem_cons.mp hz with rfl | hz'
      · exact le_rfl
      · exact le_trans (ih z hz') (not_lt.mp h)

/-- `np_argmax` is the *first* index attaining the maximum: every earlier
element is strictly smaller. -/
theorem np_argmax_first :
    ∀ l : List ℚ, ∀ j, j < np_argmax l → l.getD j 0 < l.getD (np_argmax l) 0
  | [], j, hj => by rw [show np_argmax ([] : List ℚ) = 0 from rfl] at hj; omega
  | [x], j, hj => by rw [show np_argmax [x] = 0 from rfl] at hj; omega
  | x :: y :: ys, j, hj => by
    have ih := np_argmax_first (y :: ys)
    rw [np_argmax_cons2] at hj ⊢
    by_cases h : x < (y :: ys).getD (np_argmax (y :: ys)) 0
    · rw [if_pos h] at hj ⊢
      rw [List.getD_cons_succ]
      match j with
      | 0 => rw [List.getD_cons_zero]; exact h
      | j + 1 =>
        rw [List.getD_cons_succ]
        exact ih j (Nat.lt_of_succ_lt_succ hj)
    · rw [if_neg h] at hj
      omega

/-- Python's `round` is the identity on integers. -/
theorem pyRound_natCast (n : ℕ) : pyRound (n : ℚ) = n := by
  simp only [pyRound]
  norm_num [Int.floor_natCast]

/-- `pyRound` never rounds further up than `⌊q⌋ + 1`. -/
theorem pyRound_le_floor_add_one (q : ℚ) : pyRound q ≤ ⌊q⌋ + 1 := by
  simp only [pyRound]
  split_ifs <;> omega

/-- `pyRound` of a nonnegative rational is nonnegative. -/
theorem pyRound_nonneg {q : ℚ} (hq : 0 ≤ q) : 0 ≤ pyRound q := by
  have h := Int.floor_nonneg.mpr hq
  simp only [pyRound]
  split_ifs <;> omega

/-- The click buffer is `zeros(2*fs)` with the impulse written at index
`round(2*fs/2) = fs`. -/
theorem generate_click_eq (fs : ℕ) :
    generate_click fs = (List.replicate (2*fs) (0:ℚ)).set fs 1 := by
  unfold generate_click
  rw [show ((2*fs : ℚ))/2 = ((fs : ℕ) : ℚ) by norm_num, pyRound_natCast]
  simp

/-- C4, counterexample.  `get_time_delay` computes `np.argmax(recorded_click)
- fs` on the *signed* response, not on its absolute value: for the captured
response `[-5, 1]` with `fs = 1` the code yields delay `0` (peak of the
signed samples at index 1), while the claim's `argmax(|response|) - fs`
yields `-1` (the magnitude peak is at index 0). -/
theorem time_delay_ignores_abs :
    get_time_delay_calc [-5, 1] 1 = 0 ∧
    np_argmaxAbs [-5, 1] = 0 ∧
    get_time_delay_calc [-5, 1] 1 ≠ (np_argmaxAbs [-5, 1] : ℤ) - 1 := by
  refine ⟨by decide, by decide, by decide⟩

/-- C4, amended.  The click is a 2-second zero buffer with a unit impulse at
its centre sample `fs`, and `get_time_delay` sets `TimeDelay =
argmax(response) - fs`: the offset, from the known centre index `fs`, of the
**first index of the maximum signed sample** of the captured response (no
absolute value is taken). -/
theorem time_delay_is_signed_argmax_offset (fs : ℕ) (r : List ℚ)
    (hfs : 1 ≤ fs) (hr : r ≠ []) :
    (generate_click fs).length = 2 * fs ∧
    (generate_click fs).getD fs 0 = 1 ∧
    (∀ i, i < 2 * fs → i ≠ fs → (generate_click fs).getD i 0 = 0) ∧
    get_time_delay_calc r fs = (np_argmax r : ℤ) - fs ∧
    np_argmax r < r.length ∧
    (∀ z ∈ r, z ≤ r.getD (np_argmax r) 0) ∧
    (∀ j, j < np_argmax r → r.getD j 0 < r.getD (np_argmax r) 0) := by
  have hc := generate_click_eq fs
  refine ⟨?_, ?_, ?_, rfl, np_argmax_lt_length r hr, np_argmax_is_max r,
    np_argmax_first r⟩
  · rw [hc]; simp
  · rw [hc]
    have hfs2 : fs < 2 * fs := by omega
    simp [List.getD_eq_getElem?_getD, List.getElem?_set_self,
      List.length_replicate, hfs2]
  · intro i hi hne
    rw [hc]
    simp [List.getD_eq_getElem?_getD, List.getElem?_set_ne (Ne.symm hne),
      List.getElem?_replicate, hi]

/-- Witness for the amended C4 theorem at `fs = 1` and response `[3, 7]`. -/
theorem time_delay_is_signed_argmax_offset_witness :
    1 ≤ 1 ∧ ([3, 7] : List ℚ) ≠ [] ∧
    ((generate_click 1).length = 2 * 1 ∧
     (generate_click 1).getD 1 0 = 1 ∧
     (∀ i, i < 2 * 1 → i ≠ 1 → (generate_click 1).getD i 0 = 0) ∧
     get_time_delay_calc [3, 7] 1 = (np_argmax [3, 7] : ℤ) - 1 ∧
     np_argmax [3, 7] < ([3, 7] : List ℚ).length ∧
     (∀ z ∈ ([3, 7] : List ℚ), z ≤ ([3, 7] : List ℚ).getD (np_argmax [3, 7]) 0) ∧
     (∀ j, j < np_argmax [3, 7] →
       ([3, 7] : List ℚ).getD j 0 < ([3, 7] : List ℚ).getD (np_argmax [3, 7]) 0)) :=
  ⟨le_rfl, by decide, time_delay_is_signed_argmax_offset 1 [3, 7] le_rfl (by decide)⟩

/-- Sum of a quadratic image: `Σ (c1·p² + c2·p + c3) = c1·Σp² + c2·Σp + c3·n`. -/
theorem sum_map_quadratic (l : List ℚ) (c1 c2 c3 : ℚ) :
    (l.map (fun p => c1 * p^2 + c2 * p + c3)).sum =
      c1 * (l.map (fun v => v^2)).sum + c2 * l.sum + c3 * l.length := by
  induction l with
  | nil => simp
  | cons x xs ih =>
    simp only [List.map_cons, List.sum_cons, ih, List.length_cons]
    push_cast
    ring

/-- Sum of a linear image: `Σ (a·x + b) = a·Σx + b·n`. -/
theorem sum_map_linear (l : List ℚ) (a b : ℚ) :
    (l.map (fun x => a * x + b)).sum = a * l.sum + b * l.length := by
  induction l with
  | nil => simp
  | cons x xs ih =>
    simp only [List.map_cons, List.sum_cons, ih, List.length_cons]
    push_cast
    ring

/-- `Σ x·(a·x + b) = a·Σx² + b·Σx`. -/
theorem sum_map_mul_linear (l : List ℚ) (a b : ℚ) :
    (l.map (fun x => x * (a * x + b))).sum =
      a * (l.map (fun v => v^2)).sum + b * l.sum := by
  induction l with
  | nil => simp
  | cons x xs ih =>
    simp only [List.map_cons, List.sum_cons, ih]
    ring

/-- Zipping a list with an image of itself multiplies pointwise. -/
theorem zipWith_mul_self_map (f : ℚ → ℚ) (l : List ℚ) :
    List.zipWith (· * ·) l (l.map f) = l.map (fun x => x * f x) := by
  induction l with
  | nil => rfl
  | cons x xs ih => simp [ih]

/-- Inner sum of the double-sum variance identity:
`Σ_q (p - q)² = n·p² - 2·p·Σq + Σq²`. -/
theorem sum_map_sub_sq (l : List ℚ) (p : ℚ) :
    (l.map (fun q => (p - q)^2)).sum =
      l.length * p^2 - 2 * p * l.sum + (l.map (fun v => v^2)).sum := by
  induction l with
  | nil => simp
  | cons x xs ih =>
    simp only [List.map_cons, List.sum_cons, ih, List.length_cons]
    push_cast
    ring

/-- The variance identity: `Σ_p Σ_q (p - q)² = 2·(n·Σp² - (Σp)²)`. -/
theorem double_sum_sub_sq (l : List ℚ) :
    (l.map (fun p => (l.map (fun q => (p - q)^2)).sum)).sum =
      2 * ((l.length : ℚ) * (l.map (fun v => v^2)).sum - l.sum^2) := by
  have h : l.map (fun p => (l.map (fun q => (p - q)^2)).sum) =
      l.map (fun p => (l.length : ℚ) * p^2 + (-2 * l.sum) * p +
        (l.map (fun v => v^2)).sum) := by
    refine List.map_congr_left (fun p _ => ?_)
    rw [sum_map_sub_sq]
    ring
  rw [h, sum_map_quadratic]
  ring

/-- A list of nonnegative rationals containing a positive element has a
positive sum. -/
theorem sum_pos_of_mem_pos {l : List ℚ} (hnn : ∀ x ∈ l, 0 ≤ x) {x : ℚ}
    (hx : x ∈ l) (hpos : 0 < x) : 0 < l.sum :=
  lt_of_lt_of_le hpos (List.single_le_sum hnn x hx)

/-- Two distinct elements make the least-squares denominator
`n·Σx² - (Σx)²` strictly positive. -/
theorem polyfit_denom_pos (l : List ℚ) {p q : ℚ} (hp : p ∈ l) (hq : q ∈ l)
    (hne : p ≠ q) :
    0 < (l.length : ℚ) * (l.map (fun v => v^2)).sum - l.sum^2 := by
  have hinner_pos : 0 < (l.map (fun r => (p - r)^2)).sum := by
    refine sum_pos_of_mem_pos (fun y hy => ?_) (List.mem_map_of_mem _ hq) ?_
    · obtain ⟨r, _, rfl⟩ := List.mem_map.mp hy
      positivity
    · have : p - q ≠ 0 := sub_ne_zero.mpr hne
      positivity
  have houter : 0 < (l.map (fun r => (l.map (fun s => (r - s)^2)).sum)).sum := by
    refine sum_pos_of_mem_pos (fun y hy => ?_) (List.mem_map_of_mem _ hp)
      hinner_pos
    obtain ⟨r, _, rfl⟩ := List.mem_map.mp hy
    refine List.sum_nonneg (fun z hz => ?_)
    obtain ⟨s, _, rfl⟩ := List.mem_map.mp hz
    positivity
  rw [double_sum_sub_sq] at houter
  linarith

/-- C6.  Regression round-trip: for any 20 measured peaks containing at least
two distinct values, with multipliers generated by the exact linear law
`multiplier = a·peak + b`, fitting `perform_regression` (least-squares line,
`np.polyfit` degree 1) and evaluating `get_amplitude_multiplier`
(`np.polyval`) at any target recovers `a·target + b` exactly. -/
theorem regression_roundtrip (xs : List ℚ) (a b t : ℚ) (hlen : xs.length = 20)
    (hdist : ∃ p ∈ xs, ∃ q ∈ xs, p ≠ q) :
    get_amplitude_multiplier
      (perform_regression (xs.map (fun x => a * x + b)) xs) t = a * t + b := by
  obtain ⟨p, hp, q, hq, hne⟩ := hdist
  have hD := polyfit_denom_pos xs hp hq hne
  unfold perform_regression polyfit1 get_amplitude_multiplier
  simp only [List.length_map]
  rw [zipWith_mul_self_map, sum_map_linear, sum_map_mul_linear]
  set n : ℚ := (xs.length : ℚ) with hn
  set sx := xs.sum with hsx
  set sxx := (xs.map (fun v => v^2)).sum with hsxx
  have hDne : n * sxx - sx^2 ≠ 0 := ne_of_gt hD
  have hslope : (n * (a * sxx + b * sx) - sx * (a * sx + b * n)) /
      (n * sxx - sx^2) = a := by
    rw [show n * (a * sxx + b * sx) - sx * (a * sx + b * n) =
      a * (n * sxx - sx^2) by ring]
    exact mul_div_cancel_right₀ a hDne
  have hicept : (sxx * (a * sx + b * n) - sx * (a * sxx + b * sx)) /
      (n * sxx - sx^2) = b := by
    rw [show sxx * (a * sx + b * n) - sx * (a * sxx + b * sx) =
      b * (n * sxx - sx^2) by ring]
    exact mul_div_cancel_right₀ b hDne
  rw [hslope, hicept]

/-- Witness for the regression round-trip at peaks `0, …, 19`, law
`multiplier = 2·peak + 3`, target `5`. -/
theorem regression_roundtrip_witness :
    xs20.length = 20 ∧ (∃ p ∈ xs20, ∃ q ∈ xs20, p ≠ q) ∧
    get_amplitude_multiplier
      (perform_regression (xs20.map (fun x => 2 * x + 3)) xs20) 5 = 2 * 5 + 3 :=
  ⟨by decide, by decide, regression_roundtrip xs20 2 3 5 (by decide) (by decide)⟩

/-- `np.linspace` returns exactly `n` samples. -/
theorem np_linspace_length (a b : ℚ) (n : ℕ) : (np_linspace a b n).length = n := by
  unfold np_linspace
  rw [List.length_map, List.length_range]

/-- The `i`-th sample of `np.linspace a b n`. -/
theorem np_linspace_getD (a b : ℚ) (n i : ℕ) (h : i < n) :
    (np_linspace a b n).getD i 0 = a + i * ((b - a) / ((n : ℚ) - 1)) := by
  unfold np_linspace
  rw [List.getD_eq_getElem?_getD, List.getElem?_map, List.getElem?_range h]
  rfl

/-- C7.  Ladder monotonicity: whenever `step_max = 1.25·max(|segment|) /
(measured_peak / target_peak)` exceeds `0.01`, `generate_ladder`'s twenty
step multipliers are strictly increasing, starting at exactly `0.01` and
ending at exactly `step_max`. -/
theorem ladder_steps_strictly_increasing (segment : List ℚ) (rp tp : ℚ)
    (h : 1/100 < 5/4 * peakAbs segment / (rp / tp)) :
    (generate_ladder_steps segment rp tp).length = 20 ∧
    (∀ i j, i < j → j < 20 →
      (generate_ladder_steps segment rp tp).getD i 0 <
        (generate_ladder_steps segment rp tp).getD j 0) ∧
    (generate_ladder_steps segment rp tp).getD 0 0 = 1/100 ∧
    (generate_ladder_steps segment rp tp).getD 19 0 =
      5/4 * peakAbs segment / (rp / tp) := by
  set sm := 5/4 * peakAbs segment / (rp / tp) with hsm
  have hgen : generate_ladder_steps segment rp tp = np_linspace (1/100) sm 20 :=
    rfl
  have hd : 0 < (sm - 1/100) / ((20 : ℚ) - 1) := by
    apply div_pos
    · linarith
    · norm_num
  refine ⟨by rw [hgen]; exact np_linspace_length _ _ _, ?_, ?_, ?_⟩
  · intro i j hij hj
    rw [hgen, np_linspace_getD _ _ _ i (lt_trans hij hj),
      np_linspace_getD _ _ _ j hj]
    push_cast
    have hcast : (i : ℚ) < j := by exact_mod_cast hij
    have := mul_lt_mul_of_pos_right hcast hd
    linarith
  · rw [hgen, np_linspace_getD _ _ _ 0 (by norm_num)]
    norm_num
  · rw [hgen, np_linspace_getD _ _ _ 19 (by norm_num)]
    push_cast
    rw [show ((20 : ℚ) - 1) = 19 by norm_num]
    have h19 : (19 : ℚ) * ((sm - 1/100) / 19) = sm - 1/100 := by
      field_simp
      ring
    linarith

/-- Witness for ladder monotonicity at `segment = [1]`, measured peak `1`,
target peak `1` (so `step_max = 5/4`). -/
theorem ladder_steps_strictly_increasing_witness :
    1/100 < 5/4 * peakAbs [(1 : ℚ)] / ((1 : ℚ) / 1) ∧
    ((generate_ladder_steps [(1 : ℚ)] 1 1).length = 20 ∧
     (∀ i j, i < j → j < 20 →
       (generate_ladder_steps [(1 : ℚ)] 1 1).getD i 0 <
         (generate_ladder_steps [(1 : ℚ)] 1 1).getD j 0) ∧
     (generate_ladder_steps [(1 : ℚ)] 1 1).getD 0 0 = 1/100 ∧
     (generate_ladder_steps [(1 : ℚ)] 1 1).getD 19 0 =
       5/4 * peakAbs [(1 : ℚ)] / ((1 : ℚ) / 1)) := by
  have hpk : peakAbs [(1 : ℚ)] = 1 := by decide
  have h : 1/100 < 5/4 * peakAbs [(1 : ℚ)] / ((1 : ℚ) / 1) := by
    rw [hpk]; norm_num
  exact ⟨h, ladder_steps_strictly_increasing [(1 : ℚ)] 1 1 h⟩

/-- C8.  The synthesized compensation filter has odd length: given scipy's
contract that `firwin2(numtaps, freq, gain)` returns `numtaps` coefficients,
`get_compensation_filter` returns `fft+1` coefficients when `fft` is even and
`fft` when it is odd — an odd count either way. -/
theorem compensation_filter_length_odd
    (welch : List ℚ → ℚ → ℕ → List ℚ × List ℚ) (np_sqrt : ℚ → ℚ)
    (firwin2 : ℕ → List ℚ → List ℚ → List ℚ) (p r : List ℚ) (fs : ℚ)
    (fft lo hi : ℕ)
    (hfir : ∀ n f a, (firwin2 n f a).length = n) :
    (get_compensation_filter welch np_sqrt firwin2 p r fs fft lo hi).length =
      (if fft % 2 = 0 then fft + 1 else fft) ∧
    (fft % 2 = 1 →
      Odd (get_compensation_filter welch np_sqrt firwin2 p r fs fft lo hi).length) ∧
    (fft % 2 = 0 →
      Odd (get_compensation_filter welch np_sqrt firwin2 p r fs fft lo hi).length) := by
  by_cases h : fft % 2 = 0
  · have hv : (get_compensation_filter welch np_sqrt firwin2 p r fs fft lo hi).length
        = fft + 1 := by
      simp only [get_compensation_filter, h, if_true]
      exact hfir _ _ _
    rw [hv, if_pos h]
    refine ⟨rfl, fun h1 => by omega, fun _ => ?_⟩
    rw [Nat.odd_iff]
    omega
  · have hv : (get_compensation_filter welch np_sqrt firwin2 p r fs fft lo hi).length
        = fft := by
      simp only [get_compensation_filter, h, if_false]
      exact hfir _ _ _
    rw [hv, if_neg h]
    refine ⟨rfl, fun h1 => ?_, fun h0 => absurd h0 h⟩
    rw [Nat.odd_iff]
    exact h1

/-- Witness for the filter-length theorem with the concrete stubs and
`fft = 4` (even, so 5 taps). -/
theorem compensation_filter_length_odd_witness :
    (∀ n f a, (firwin2Stub n f a).length = n) ∧
    ((get_compensation_filter welchStub sqrtStub firwin2Stub [1] [1] 8 4 0 1).length =
       (if (4 : ℕ) % 2 = 0 then 4 + 1 else 4) ∧
     ((4 : ℕ) % 2 = 1 →
       Odd (get_compensation_filter welchStub sqrtStub firwin2Stub [1] [1] 8 4 0 1).length) ∧
     ((4 : ℕ) % 2 = 0 →
       Odd (get_compensation_filter welchStub sqrtStub firwin2Stub [1] [1] 8 4 0 1).length)) :=
  ⟨fun n _ _ => List.length_replicate n 0,
    compensation_filter_length_odd welchStub sqrtStub firwin2Stub [1] [1] 8 4 0 1
      (fun n _ _ => List.length_replicate n 0)⟩


/-- Evaluating the first slice assignment of the windowing idiom:
writing the up-ramp over `[0:lr]` of the ones vector. -/
theorem npAssignSlice_head (n : ℕ) (up : List ℚ) (hle : up.length ≤ n) :
    npAssignSlice (List.replicate n (1 : ℚ)) 0 (up.length : ℤ) up =
      some (up ++ List.replicate (n - up.length) 1) := by
  unfold npAssignSlice pySliceIdx
  rw [List.length_replicate]
  norm_num [hle]

/-- Evaluating the second slice assignment of the windowing idiom:
writing the down-ramp over `[n-lr:n]` of the partially built window. -/
theorem npAssignSlice_tail (w1 down : List ℚ) (hw : down.length ≤ w1.length) :
    npAssignSlice w1 ((w1.length : ℤ) - down.length) (w1.length : ℤ) down =
      some (w1.take (w1.length - down.length) ++ down) := by
  unfold npAssignSlice pySliceIdx
  have h1 : ¬ ((w1.length : ℤ) - down.length < 0) := by omega
  have h2 : ¬ ((w1.length : ℤ) < 0) := by omega
  rw [if_neg h1, if_neg h2, Int.toNat_sub, Int.toNat_natCast,
    min_eq_left (Nat.sub_le _ _), min_self]
  rw [if_pos ⟨by omega, Nat.sub_le _ _⟩]
  congr 1
  rw [show w1.length - down.length + down.length = w1.length by omega,
    List.drop_length, List.append_nil]

/-- The windowing idiom succeeds whenever the ramp fits twice in the signal,
and produces exactly `signal * (up-ramp ++ ones ++ down-ramp)`. -/
theorem apply_window_eq (ramp : List ℚ) (ns nc : ℚ → ℚ) (npi : ℚ)
    (seg : List ℚ) (h2 : 2 * ramp.length ≤ seg.length) :
    apply_window ramp ns nc npi seg =
      some (List.zipWith (· * ·) seg
        (ramp.map (fun t => 1/2 * ns (t - npi/2) + 1/2) ++
         List.replicate (seg.length - 2 * ramp.length) 1 ++
         ramp.map (fun t => 1/2 * nc t + 1/2))) := by
  set lr := ramp.length with hlr
  set n := seg.length with hn
  set up := ramp.map (fun t => 1/2 * ns (t - npi/2) + 1/2) with hup
  set down := ramp.map (fun t => 1/2 * nc t + 1/2) with hdown
  have hupl : up.length = lr := by rw [hup, List.length_map]
  have hdownl : down.length = lr := by rw [hdown, List.length_map]
  have hlen : lr ≤ n := by omega
  have h1 : npAssignSlice (List.replicate n (1 : ℚ)) 0 (lr : ℤ) up =
      some (up ++ List.replicate (n - lr) 1) := by
    rw [← hupl, npAssignSlice_head n up (by omega)]
  have hw1l : (up ++ List.replicate (n - lr) (1 : ℚ)).length = n := by
    rw [List.length_append, hupl, List.length_replicate]
    omega
  have h3 : npAssignSlice (up ++ List.replicate (n - lr) (1 : ℚ))
      ((n : ℤ) - lr) (n : ℤ) down =
      some (up ++ List.replicate (n - 2 * lr) 1 ++ down) := by
    have := npAssignSlice_tail (up ++ List.replicate (n - lr) (1 : ℚ)) down
      (by rw [hw1l, hdownl]; omega)
    rw [hw1l, hdownl] at this
    rw [this]
    congr 1
    rw [List.take_append_eq_append_take,
      List.take_of_length_le (by rw [hupl]; omega), hupl, List.take_replicate,
      show min (n - lr - lr) (n - lr) = n - 2 * lr by omega]
  show (match npAssignSlice (List.replicate n (1 : ℚ)) 0 (lr : ℤ) up with
    | none => none
    | some w1 =>
      match npAssignSlice w1 ((n : ℤ) - lr) (n : ℤ) down with
      | none => none
      | some window => some (List.zipWith (· * ·) seg window)) =
    some (List.zipWith (· * ·) seg (up ++ List.replicate (n - 2 * lr) 1 ++ down))
  rw [h1]
  show (match npAssignSlice (up ++ List.replicate (n - lr) (1 : ℚ))
      ((n : ℤ) - lr) (n : ℤ) down with
    | none => none
    | some window => some (List.zipWith (· * ·) seg window)) =
    some (List.zipWith (· * ·) seg (up ++ List.replicate (n - 2 * lr) 1 ++ down))
  rw [h3]


/-- `getD` through `map`. -/
theorem getD_map_lt (f : ℚ → ℚ) (l : List ℚ) (i : ℕ) (h : i < l.length) :
    (l.map f).getD i 0 = f (l.getD i 0) := by
  rw [List.getD_eq_getElem _ _ (by simpa using h), List.getElem_map,
    List.getD_eq_getElem _ _ h]

/-- `getD` of a constant vector. -/
theorem getD_replicate_lt (a : ℚ) (n i : ℕ) (h : i < n) :
    (List.replicate n a).getD i 0 = a := by
  rw [List.getD_eq_getElem _ _ (by simpa using h), List.getElem_replicate]

/-- `getD` through elementwise multiplication. -/
theorem getD_zipWith_mul (as bs : List ℚ) (i : ℕ) (ha : i < as.length)
    (hb : i < bs.length) :
    (List.zipWith (· * ·) as bs).getD i 0 = as.getD i 0 * bs.getD i 0 := by
  rw [List.getD_eq_getElem _ _ (by rw [List.length_zipWith]; omega),
    List.getElem_zipWith, List.getD_eq_getElem _ _ ha,
    List.getD_eq_getElem _ _ hb]

/-- A Python slice with in-range nonnegative endpoints is `take` then `drop`. -/
theorem pySlice_eq (l : List ℚ) (a b : ℤ) (ha : 0 ≤ a) (hab : a ≤ b)
    (hb : b ≤ (l.length : ℤ)) :
    pySlice l a b = (l.take b.toNat).drop a.toNat := by
  have hA : ¬ (a < 0) := by omega
  have hB : ¬ (b < 0) := by omega
  simp only [pySlice, pySliceIdx, if_neg hA, if_neg hB,
    min_eq_left (show b.toNat ≤ l.length by omega),
    min_eq_left (show a.toNat ≤ l.length by omega)]

/-- Length of an in-range Python slice. -/
theorem pySlice_length (l : List ℚ) (a b : ℤ) (ha : 0 ≤ a) (hab : a ≤ b)
    (hb : b ≤ (l.length : ℤ)) :
    (pySlice l a b).length = (b - a).toNat := by
  rw [pySlice_eq l a b ha hab hb, List.length_drop, List.length_take]
  omega

/-- Elements of an in-range Python slice come from the base list, shifted. -/
theorem pySlice_getD (l : List ℚ) (a b : ℤ) (ha : 0 ≤ a) (hab : a ≤ b)
    (hb : b ≤ (l.length : ℤ)) (i : ℕ) (hi : (i : ℤ) < b - a) :
    (pySlice l a b).getD i 0 = l.getD (a.toNat + i) 0 := by
  rw [pySlice_eq l a b ha hab hb]
  have h1 : i < ((l.take b.toNat).drop a.toNat).length := by
    rw [List.length_drop, List.length_take]
    omega
  rw [List.getD_eq_getElem _ _ h1, List.getElem_drop, List.getElem_take,
    ← List.getD_eq_getElem l 0 (show a.toNat + i < l.length by omega)]

/-- The windowing idiom raises when the ramp does not fit the signal: the
first slice assignment resolves to a slice shorter than the ramp. -/
theorem apply_window_none (ramp : List ℚ) (ns nc : ℚ → ℚ) (npi : ℚ)
    (seg : List ℚ) (h : seg.length < ramp.length) :
    apply_window ramp ns nc npi seg = none := by
  have hfail : npAssignSlice (List.replicate seg.length (1 : ℚ)) 0
      (ramp.length : ℤ) (ramp.map (fun t => 1/2 * ns (t - npi/2) + 1/2)) =
      none := by
    unfold npAssignSlice pySliceIdx
    rw [List.length_replicate]
    rw [if_neg (show ¬ ((0 : ℤ) < 0) by omega),
      if_neg (show ¬ ((ramp.length : ℤ) < 0) by omega)]
    rw [if_neg]
    intro hcl
    rw [Int.toNat_natCast, Int.toNat_zero, List.length_map] at hcl
    omega
  show (match npAssignSlice (List.replicate seg.length (1 : ℚ)) 0
      (ramp.length : ℤ) (ramp.map (fun t => 1/2 * ns (t - npi/2) + 1/2)) with
    | none => none
    | some w1 =>
      match npAssignSlice w1 ((seg.length : ℤ) - ramp.length)
          (seg.length : ℤ) (ramp.map (fun t => 1/2 * nc t + 1/2)) with
      | none => none
      | some window => some (List.zipWith (· * ·) seg window)) = none
  rw [hfail]

/-- `get_peak_segmentment` at the source's fixed `segment_size = 8192`:
slice `[peak-4096 : peak+4096]` and window it with 1024-sample ramps. -/
theorem get_peak_segmentment_unfold (ns nc : ℚ → ℚ) (npi : ℚ)
    (playback : List ℚ) (peak : ℤ) :
    get_peak_segmentment ns nc npi playback peak 8192 =
      apply_window (np_linspace 0 npi 1024) ns nc npi
        (pySlice playback (peak - 4096) (peak + 4096)) := by
  simp only [get_peak_segmentment]
  rw [show pyRound (((8192 : ℕ) : ℚ)/2) = 4096 by
      rw [show (((8192 : ℕ) : ℚ))/2 = ((4096 : ℕ) : ℚ) by norm_num,
        pyRound_natCast]
      norm_num,
    show pyRound (((8192 : ℕ) : ℚ)/8) = 1024 by
      rw [show (((8192 : ℕ) : ℚ))/8 = ((1024 : ℕ) : ℚ) by norm_num,
        pyRound_natCast]
      norm_num]
  rfl

/-- C9, counterexample.  A peak too close to the start of the stimulus does
not yield an 8192-sample segment: for stimulus `[1,2,3]` and peak index `0`,
the Python slice `[-4096:4096]` clamps to the whole 3-sample list, and the
subsequent 1024-sample ramp assignment raises a numpy broadcast error
(modelled as `none`) instead of returning a centred 8192-sample window. -/
theorem peak_segment_near_edge_errors :
    get_peak_segmentment (fun _ => 0) (fun _ => 0) 0 [1, 2, 3] 0 8192 =
      none := by
  rw [get_peak_segmentment_unfold,
    (by decide : pySlice [1, 2, 3] ((0 : ℤ) - 4096) ((0 : ℤ) + 4096) = [1, 2, 3])]
  exact apply_window_none _ _ _ _ _ (by rw [np_linspace_length]; norm_num)


/-- C9, amended.  Whenever the located peak is at least 4096 samples from
both ends of the stimulus, `get_peak_segmentment` with `segment_size = 8192`
returns a segment of exactly 8192 samples centred on the peak (sample `i` of
the segment comes from stimulus sample `peak - 4096 + i`), with the middle
6144 samples untouched, the first 1024 samples multiplied by the half-sine
ramp `0.5*sin(ramp_i - π/2) + 0.5`, and the last 1024 samples multiplied by
the half-cosine ramp `0.5*cos(ramp_j) + 0.5`. -/
theorem get_peak_segment_centered_8192 (ns nc : ℚ → ℚ) (npi : ℚ)
    (playback : List ℚ) (peak : ℤ)
    (hlo : 4096 ≤ peak) (hhi : peak + 4096 ≤ (playback.length : ℤ)) :
    ∃ seg, get_peak_segmentment ns nc npi playback peak 8192 = some seg ∧
      seg.length = 8192 ∧
      (∀ i, 1024 ≤ i → i < 7168 →
        seg.getD i 0 = playback.getD ((peak - 4096).toNat + i) 0) ∧
      (∀ i, i < 1024 →
        seg.getD i 0 = playback.getD ((peak - 4096).toNat + i) 0 *
          (1/2 * ns ((np_linspace 0 npi 1024).getD i 0 - npi/2) + 1/2)) ∧
      (∀ j, j < 1024 →
        seg.getD (7168 + j) 0 =
          playback.getD ((peak - 4096).toNat + (7168 + j)) 0 *
            (1/2 * nc ((np_linspace 0 npi 1024).getD j 0) + 1/2)) := by
  have ha : (0 : ℤ) ≤ peak - 4096 := by omega
  have hab : peak - 4096 ≤ peak + 4096 := by omega
  have hsl_len : (pySlice playback (peak - 4096) (peak + 4096)).length = 8192 := by
    rw [pySlice_length _ _ _ ha hab hhi]
    omega
  set sl := pySlice playback (peak - 4096) (peak + 4096) with hsl
  set up := (np_linspace 0 npi 1024).map (fun t => 1/2 * ns (t - npi/2) + 1/2)
    with hupdef
  set down := (np_linspace 0 npi 1024).map (fun t => 1/2 * nc t + 1/2)
    with hdowndef
  have hupl : up.length = 1024 := by
    rw [hupdef, List.length_map, np_linspace_length]
  have hdownl : down.length = 1024 := by
    rw [hdowndef, List.length_map, np_linspace_length]
  have hwin : apply_window (np_linspace 0 npi 1024) ns nc npi sl =
      some (List.zipWith (· * ·) sl (up ++ List.replicate 6144 1 ++ down)) := by
    rw [apply_window_eq _ _ _ _ _ (by rw [np_linspace_length, hsl_len]; norm_num)]
    rw [np_linspace_length, hsl_len]
  have hwl : (up ++ List.replicate 6144 (1 : ℚ) ++ down).length = 8192 := by
    rw [List.length_append, List.length_append, hupl, hdownl,
      List.length_replicate]
  have hseg_len :
      (List.zipWith (· * ·) sl (up ++ List.replicate 6144 1 ++ down)).length =
        8192 := by
    rw [List.length_zipWith, hsl_len, hwl, min_self]
  refine ⟨_, by rw [get_peak_segmentment_unfold, hwin], hseg_len, ?_, ?_, ?_⟩
  · intro i h1 h2
    rw [getD_zipWith_mul _ _ i (by rw [hsl_len]; omega) (by rw [hwl]; omega)]
    have hw : (up ++ List.replicate 6144 (1 : ℚ) ++ down).getD i 0 = 1 := by
      rw [List.getD_append _ _ _ _
          (by rw [List.length_append, hupl, List.length_replicate]; omega),
        List.getD_append_right _ _ _ _ (by rw [hupl]; omega), hupl]
      exact getD_replicate_lt 1 6144 (i - 1024) (by omega)
    rw [hw, mul_one, hsl, pySlice_getD _ _ _ ha hab hhi i (by omega)]
  · intro i hi
    rw [getD_zipWith_mul _ _ i (by rw [hsl_len]; omega) (by rw [hwl]; omega)]
    have hw : (up ++ List.replicate 6144 (1 : ℚ) ++ down).getD i 0 =
        1/2 * ns ((np_linspace 0 npi 1024).getD i 0 - npi/2) + 1/2 := by
      rw [List.getD_append _ _ _ _
          (by rw [List.length_append, hupl, List.length_replicate]; omega),
        List.getD_append _ _ _ _ (by rw [hupl]; omega), hupdef,
        getD_map_lt _ _ i (by rw [np_linspace_length]; omega)]
    rw [hw, hsl, pySlice_getD _ _ _ ha hab hhi i (by omega)]
  · intro j hj
    rw [getD_zipWith_mul _ _ (7168 + j) (by rw [hsl_len]; omega)
      (by rw [hwl]; omega)]
    have hw : (up ++ List.replicate 6144 (1 : ℚ) ++ down).getD (7168 + j) 0 =
        1/2 * nc ((np_linspace 0 npi 1024).getD j 0) + 1/2 := by
      rw [List.getD_append_right _ _ _ _
        (by rw [List.length_append, hupl, List.length_replicate]; omega)]
      rw [List.length_append, hupl, List.length_replicate,
        show 7168 + j - (1024 + 6144) = j by omega, hdowndef,
        getD_map_lt _ _ j (by rw [np_linspace_length]; omega)]
    rw [hw, hsl, pySlice_getD _ _ _ ha hab hhi (7168 + j) (by omega)]

/-- Witness for the centred-segment theorem on an 8192-sample constant
stimulus with the peak at its centre. -/
theorem get_peak_segment_centered_8192_witness :
    (4096 : ℤ) ≤ 4096 ∧
    (4096 : ℤ) + 4096 ≤ ((List.replicate 8192 (1 : ℚ)).length : ℤ) ∧
    (∃ seg, get_peak_segmentment (fun _ => 0) (fun _ => 0) 0
        (List.replicate 8192 (1 : ℚ)) 4096 8192 = some seg ∧
      seg.length = 8192 ∧
      (∀ i, 1024 ≤ i → i < 7168 →
        seg.getD i 0 =
          (List.replicate 8192 (1 : ℚ)).getD (((4096 : ℤ) - 4096).toNat + i) 0) ∧
      (∀ i, i < 1024 →
        seg.getD i 0 =
          (List.replicate 8192 (1 : ℚ)).getD (((4096 : ℤ) - 4096).toNat + i) 0 *
            (1/2 * (fun _ => (0 : ℚ)) ((np_linspace 0 0 1024).getD i 0 - 0/2) +
              1/2)) ∧
      (∀ j, j < 1024 →
        seg.getD (7168 + j) 0 =
          (List.replicate 8192 (1 : ℚ)).getD
              (((4096 : ℤ) - 4096).toNat + (7168 + j)) 0 *
            (1/2 * (fun _ => (0 : ℚ)) ((np_linspace 0 0 1024).getD j 0) +
              1/2))) :=
  ⟨le_rfl, by rw [List.length_replicate]; norm_num, get_peak_segment_centered_8192
    (fun _ => 0) (fun _ => 0) 0 (List.replicate 8192 (1 : ℚ)) 4096 le_rfl
    (by rw [List.length_replicate]; norm_num)⟩

/-- Every element of an elementwise product is a product of elements. -/
theorem mem_zipWith_mul {x : ℚ} :
    ∀ {as bs : List ℚ}, x ∈ List.zipWith (· * ·) as bs →
      ∃ a ∈ as, ∃ b ∈ bs, x = a * b := by
  intro as
  induction as with
  | nil => intro bs h; simp at h
  | cons a as ih =>
    intro bs h
    match bs with
    | [] => simp at h
    | b :: bs =>
      rw [List.zipWith_cons_cons, List.mem_cons] at h
      rcases h with rfl | h
      · exact ⟨a, List.mem_cons_self a as, b, List.mem_cons_self b bs, rfl⟩
      · obtain ⟨a2, ha2, b2, hb2, rfl⟩ := ih h
        exact ⟨a2, List.mem_cons_of_mem a ha2, b2, List.mem_cons_of_mem b hb2,
          rfl⟩

/-- The taper factors `0.5·t + 0.5` stay within `[-1, 1]` when `|t| ≤ 1`. -/
theorem half_taper_bound {t : ℚ} (h : |t| ≤ 1) : |1/2 * t + 1/2| ≤ 1 := by
  rw [abs_le] at h ⊢
  constructor <;> linarith [h.1, h.2]

/-- Every element of the window built by the windowing idiom has magnitude
at most 1. -/
theorem window_elements_bound (ns nc : ℚ → ℚ) (npi : ℚ) (ramp : List ℚ)
    (k : ℕ) (hsin : ∀ t, |ns t| ≤ 1) (hcos : ∀ t, |nc t| ≤ 1) :
    ∀ w ∈ ramp.map (fun t => 1/2 * ns (t - npi/2) + 1/2) ++
        List.replicate k (1 : ℚ) ++
        ramp.map (fun t => 1/2 * nc t + 1/2), |w| ≤ 1 := by
  intro w hw
  rcases List.mem_append.mp hw with hw2 | hdown
  · rcases List.mem_append.mp hw2 with hup | hone
    · obtain ⟨t, _, rfl⟩ := List.mem_map.mp hup
      exact half_taper_bound (hsin _)
    · rw [List.eq_of_mem_replicate hone]
      norm_num
  · obtain ⟨t, _, rfl⟩ := List.mem_map.mp hdown
    exact half_taper_bound (hcos _)

/-- C10.  Structure and amplitude bound of the probe noise: for any sampling
rate `fs ≥ 1`, any random draw `rand` of `2·fs` samples in `[0, 1)`, and any
sine/cosine implementations bounded by 1, `generate_noise` succeeds and
returns `round(fs/6)` leading zeros, `2·fs` windowed-noise samples, and
`3·round(fs/6)` trailing zeros — total length `2·fs + 4·round(fs/6)` — and
every sample has magnitude at most `1/4`. -/
theorem generate_noise_structure (fs : ℕ) (rand : List ℚ) (ns nc : ℚ → ℚ)
    (npi : ℚ) (hfs : 1 ≤ fs) (hlen : rand.length = 2 * fs)
    (hrand : ∀ x ∈ rand, 0 ≤ x ∧ x < 1)
    (hsin : ∀ t, |ns t| ≤ 1) (hcos : ∀ t, |nc t| ≤ 1) :
    ∃ noise middle, generate_noise fs rand ns nc npi = some noise ∧
      noise = List.replicate (pyRound ((fs : ℚ)/6)).toNat 0 ++ middle ++
        List.replicate (3 * (pyRound ((fs : ℚ)/6)).toNat) 0 ∧
      middle.length = 2 * fs ∧
      noise.length = 2 * fs + 4 * (pyRound ((fs : ℚ)/6)).toNat ∧
      (∀ x ∈ noise, |x| ≤ 1/4) := by
  set p := (pyRound ((fs : ℚ)/6)).toNat with hp
  set lr := (pyRound ((fs : ℚ)/5)).toNat with hlrdef
  have hfl : ⌊(fs : ℚ)/5⌋ < (fs : ℤ) := by
    rw [Int.floor_lt]
    have h1 : (1 : ℚ) ≤ (fs : ℚ) := by exact_mod_cast hfs
    push_cast
    linarith
  have hround5 : pyRound ((fs : ℚ)/5) ≤ (fs : ℤ) := by
    have := pyRound_le_floor_add_one ((fs : ℚ)/5)
    omega
  have hlr_le : lr ≤ fs := by
    rw [hlrdef]
    omega
  set wn := rand.map (fun x => x - 1/2) with hwn
  have hwnl : wn.length = 2 * fs := by
    rw [hwn, List.length_map, hlen]
  set up := (np_linspace 0 npi lr).map (fun t => 1/2 * ns (t - npi/2) + 1/2)
    with hupdef
  set down := (np_linspace 0 npi lr).map (fun t => 1/2 * nc t + 1/2)
    with hdowndef
  have hwin : apply_window (np_linspace 0 npi lr) ns nc npi wn =
      some (List.zipWith (· * ·) wn
        (up ++ List.replicate (2 * fs - 2 * lr) 1 ++ down)) := by
    rw [apply_window_eq _ _ _ _ _ (by rw [np_linspace_length, hwnl]; omega)]
    rw [np_linspace_length, hwnl]
  have hwindowl :
      (up ++ List.replicate (2 * fs - 2 * lr) (1 : ℚ) ++ down).length =
        2 * fs := by
    rw [List.length_append, List.length_append, hupdef, hdowndef,
      List.length_map, List.length_map, np_linspace_length,
      List.length_replicate]
    omega
  set windowed := List.zipWith (· * ·) wn
    (up ++ List.replicate (2 * fs - 2 * lr) 1 ++ down) with hwindowed
  have hwinl : windowed.length = 2 * fs := by
    rw [hwindowed, List.length_zipWith, hwnl, hwindowl, min_self]
  have hnoise : generate_noise fs rand ns nc npi =
      some ((List.replicate p (0 : ℚ) ++ windowed ++ List.replicate p 0 ++
        List.replicate p 0 ++ List.replicate p 0).map (fun x => x * (1/2))) := by
    show (match apply_window (np_linspace 0 npi lr) ns nc npi wn with
      | none => none
      | some windowed2 =>
        some ((List.replicate p (0 : ℚ) ++ windowed2 ++ List.replicate p 0 ++
          List.replicate p 0 ++ List.replicate p 0).map
            (fun x => x * (1/2)))) = _
    rw [hwin]
  refine ⟨_, windowed.map (fun x => x * (1/2)), hnoise, ?_, ?_, ?_, ?_⟩
  · simp only [List.map_append, List.map_replicate, zero_mul]
    rw [show 3 * p = p + (p + p) by omega, List.replicate_add,
      List.replicate_add]
    simp [List.append_assoc]
    omega
  · rw [List.length_map, hwinl]
  · simp only [List.length_map, List.length_append, List.length_replicate,
      hwinl]
    omega
  · intro x hx
    simp only [List.mem_map] at hx
    obtain ⟨y, hy, rfl⟩ := hx
    have hyb : |y| ≤ 1/2 := by
      rcases List.mem_append.mp hy with hy2 | hpad3
      · rcases List.mem_append.mp hy2 with hy3 | hpad2
        · rcases List.mem_append.mp hy3 with hy4 | hpad1
          · rcases List.mem_append.mp hy4 with hpad0 | hmid
            · rw [List.eq_of_mem_replicate hpad0]
              norm_num
            · obtain ⟨a, ha, b, hb, rfl⟩ := mem_zipWith_mul hmid
              have hab : |a| ≤ 1/2 := by
                rw [hwn] at ha
                obtain ⟨r, hr, rfl⟩ := List.mem_map.mp ha
                obtain ⟨hr0, hr1⟩ := hrand r hr
                rw [abs_le]
                constructor <;> linarith
              have hbb : |b| ≤ 1 := by
                rw [hupdef, hdowndef] at hb
                exact window_elements_bound ns nc npi (np_linspace 0 npi lr)
                  (2 * fs - 2 * lr) hsin hcos b hb
              calc |a * b| = |a| * |b| := abs_mul a b
                _ ≤ 1/2 * 1 :=
                    mul_le_mul hab hbb (abs_nonneg b) (by norm_num)
                _ = 1/2 := by norm_num
          · rw [List.eq_of_mem_replicate hpad1]
            norm_num
        · rw [List.eq_of_mem_replicate hpad2]
          norm_num
      · rw [List.eq_of_mem_replicate hpad3]
        norm_num
    calc |y * (1/2)| = |y| * |1/2| := abs_mul y (1/2)
      _ ≤ 1/2 * (1/2) :=
          mul_le_mul hyb (abs_of_pos (show (0:ℚ) < 1/2 by norm_num)).le
            (abs_nonneg _) (by norm_num)
      _ = 1/4 := by norm_num


/-- Witness for the noise-structure theorem at `fs = 5` with the constant
draw `rand = [1/2, …, 1/2]` and zero sine/cosine instances. -/
theorem generate_noise_structure_witness :
    (1 ≤ 5 ∧ (List.replicate 10 (1/2 : ℚ)).length = 2 * 5 ∧
     (∀ x ∈ List.replicate 10 (1/2 : ℚ), 0 ≤ x ∧ x < 1) ∧
     (∀ t : ℚ, |(fun _ => (0 : ℚ)) t| ≤ 1)) ∧
    (∃ noise middle,
      generate_noise 5 (List.replicate 10 (1/2)) (fun _ => 0) (fun _ => 0) 0 =
        some noise ∧
      noise = List.replicate (pyRound (((5 : ℕ) : ℚ)/6)).toNat 0 ++ middle ++
        List.replicate (3 * (pyRound (((5 : ℕ) : ℚ)/6)).toNat) 0 ∧
      middle.length = 2 * 5 ∧
      noise.length = 2 * 5 + 4 * (pyRound (((5 : ℕ) : ℚ)/6)).toNat ∧
      (∀ x ∈ noise, |x| ≤ 1/4)) := by
  have hlen : (List.replicate 10 (1/2 : ℚ)).length = 2 * 5 := by
    rw [List.length_replicate]
  have hrand : ∀ x ∈ List.replicate 10 (1/2 : ℚ), 0 ≤ x ∧ x < 1 := by
    intro x hx
    rw [List.eq_of_mem_replicate hx]
    norm_num
  have htrig : ∀ t : ℚ, |(fun _ => (0 : ℚ)) t| ≤ 1 := by
    intro t
    simp
  exact ⟨⟨by norm_num, hlen, hrand, htrig⟩,
    generate_noise_structure 5 (List.replicate 10 (1/2)) (fun _ => 0)
      (fun _ => 0) 0 (by norm_num) hlen hrand htrig htrig⟩


/-- Witness for the amended C5 theorem at stimulus `[3]`, multiplier `2`. -/
theorem calibration_saves_scaled_unmodified_witness :
    (calibration_finalize [3] 2).saved = calibrate_amplitude [3] 2 ∧
    (calibration_finalize [3] 2).saved.length = ([3] : List ℚ).length ∧
    (∀ i, i < ([3] : List ℚ).length →
      (calibration_finalize [3] 2).saved.getD i 0 = ([3] : List ℚ).getD i 0 * 2) ∧
    (calibration_finalize [3] 2).warnings = [] :=
  calibration_saves_scaled_unmodified [3] 2

end VibePy
